import Mathlib

set_option maxHeartbeats 1000000

/-! Shallow embedding of the GPIO edge-detection polling controller from
`src/io/rpio.go`: the lifecycle state machine (Go struct `rPIO`, here
`ControllerState`), its public operations, and the polling coordinator loop
(`rpioPoller.poll`, here `pollStep`/`pollRun`).  Controller methods are
embedded as pure functions returning the error, the updated state, the
hardware calls performed, and the channel messages sent; the poller loop is
a step function consuming one channel event at a time and emitting the
callback invocations it spawns. -/

/-- A hardware line handle (`rpio.Pin`), identified by its pin number. -/
abbrev Pin := Nat

/-- An edge kind (`rpio.Edge`), as in go-rpio: 0 = NoEdge, 1 = RiseEdge,
2 = FallEdge, 3 = AnyEdge. -/
abbrev Edge := Nat

/-- Edge constant `rpio.NoEdge`. -/
def NoEdge : Edge := 0

/-- Edge constant `rpio.RiseEdge`. -/
def RiseEdge : Edge := 1

/-- Edge constant `rpio.FallEdge`. -/
def FallEdge : Edge := 2

/-- Edge constant `rpio.AnyEdge`. -/
def AnyEdge : Edge := 3

/-- Callbacks (`func(rpio.Edge)`) are identified opaquely by a number;
invoking one is recorded as an `Invocation` event rather than executed. -/
abbrev Callback := Nat

/-- A `time.Duration`, in nanoseconds. -/
abbrev Duration := Nat

/-- `DefaultPollFreq = 100 * time.Millisecond`. -/
def DefaultPollFreq : Duration := 100000000

/-- Go struct `pinRegistration`: a callback registration for edge detection
on a pin. -/
structure pinRegistration where
  pin : Pin
  edge : Edge
  callback : Callback
  deriving DecidableEq, Repr

/-- Error string of `RegisterEdgeDetection`/`RemoveEdgeDetectionRegistration`
when GPIO is not open (the spec's `NotOpen`). -/
def errNotOpen : String := "GPIO is not yet open"

/-- Error string when polling has not started (the spec's `NotPolling`). -/
def errNotPolling : String := "not yet polling GPIO"

/-- Error string for a duplicate registration (the spec's `AlreadyRegistered`). -/
def errAlreadyRegistered : String :=
  "pin is already registered, call RemoveEdgeDetectionRegistration before attempting a new registration"

/-- Error string for removing an unregistered pin (the spec's `NotRegistered`). -/
def errNotRegistered : String := "pin is not yet registered"

/-- Error string returned by `UpdatePollFreq`: its label talks about polling
even though the guarded condition is `!r.open`. -/
def errPollingNotStarted : String := "polling has not yet started"

/-- Go struct `rPIO`: the controller's lifecycle state.  Go field `open` is
named `isOpen` here (`open` is a Lean keyword); `polling` and
`registeredPins` keep their names.  The Go `map[rpio.Pin]bool` used as a set
is modelled as a list of pins with set membership. -/
structure ControllerState where
  isOpen : Bool
  polling : Bool
  registeredPins : List Pin
  deriving DecidableEq, Repr

/-- A message sent on one of the poller's channels (or a tick of its ticker,
which in Go is also delivered on a channel, `ticker.C`).  A tick carries the
hardware layer's answer to `pin.EdgeDetected()` for each pin at that moment. -/
inductive PollerMsg where
  | tick (edgeDetected : Pin → Bool)
  | newPin (reg : pinRegistration)
  | removePin (pin : Pin)
  | newPollFreq (d : Duration)
  | stop

/-- A side effect a controller method performs besides channel sends:
`rpio.Open()`, `rpio.Close()`, `pin.Detect(edge)`, and launching the poller
goroutine (`go r.poller.poll()`). -/
inductive Effect where
  | openGPIO
  | closeGPIO
  | detect (pin : Pin) (edge : Edge)
  | spawnPoller
  deriving DecidableEq, Repr

/-- Result of a controller method: the returned error (if any), the state
after the call, the hardware effects performed, and the messages sent to the
poller, in order. -/
structure OpResult where
  err : Option String
  state : ControllerState
  effects : List Effect
  msgs : List PollerMsg

/-- A call that returns without doing anything. -/
def noop (r : ControllerState) : OpResult := ⟨none, r, [], []⟩

/-- Remove every occurrence of a pin from the controller's shadow set
(Go: `delete(r.registeredPins, pin)`). -/
def setRemove : List Pin → Pin → List Pin
  | [], _ => []
  | q :: rest, p => if q = p then setRemove rest p else q :: setRemove rest p

/-- `rPIO.Start`: opens GPIO unless already open.  The Go code panics when
`rpio.Open()` fails; that aborts the process and is outside this model, so
the open is modelled as succeeding. -/
def Start (r : ControllerState) : OpResult :=
  if r.isOpen then noop r
  else ⟨none, { r with isOpen := true }, [Effect.openGPIO], []⟩

/-- `rPIO.Poll`: launches the poller goroutine unless already polling. -/
def Poll (r : ControllerState) : OpResult :=
  if r.polling then noop r
  else ⟨none, { r with polling := true }, [Effect.spawnPoller], []⟩

/-- `rPIO.StopPolling`: signals the poller to stop unless not polling. -/
def StopPolling (r : ControllerState) : OpResult :=
  if !r.polling then noop r
  else ⟨none, { r with polling := false }, [], [PollerMsg.stop]⟩

/-- `rPIO.Stop`: stops polling first when needed, then closes GPIO, unless
not open.  As with `Start`, the panic on a failed `rpio.Close()` aborts the
process and the close is modelled as succeeding. -/
def Stop (r : ControllerState) : OpResult :=
  if !r.isOpen then noop r
  else
    let a := if r.polling then StopPolling r else noop r
    ⟨none, { a.state with isOpen := false }, a.effects ++ [Effect.closeGPIO], a.msgs⟩

/-- `rPIO.RegisterEdgeDetection`: after the three precondition checks,
records the pin in the shadow set, calls `pin.Detect(edge)`, and sends the
registration on the `newPin` channel. -/
def RegisterEdgeDetection (r : ControllerState) (pin : Pin) (edge : Edge)
    (callback : Callback) : OpResult :=
  if !r.isOpen then ⟨some errNotOpen, r, [], []⟩
  else if !r.polling then ⟨some errNotPolling, r, [], []⟩
  else if pin ∈ r.registeredPins then ⟨some errAlreadyRegistered, r, [], []⟩
  else
    ⟨none, { r with registeredPins := r.registeredPins ++ [pin] },
      [Effect.detect pin edge], [PollerMsg.newPin ⟨pin, edge, callback⟩]⟩

/-- `rPIO.RemoveEdgeDetectionRegistration`: after the three precondition
checks, removes the pin from the shadow set, calls `pin.Detect(rpio.NoEdge)`,
and sends the pin on the `removePin` channel. -/
def RemoveEdgeDetectionRegistration (r : ControllerState) (pin : Pin) : OpResult :=
  if !r.isOpen then ⟨some errNotOpen, r, [], []⟩
  else if !r.polling then ⟨some errNotPolling, r, [], []⟩
  else if pin ∉ r.registeredPins then ⟨some errNotRegistered, r, [], []⟩
  else
    ⟨none, { r with registeredPins := setRemove r.registeredPins pin },
      [Effect.detect pin NoEdge], [PollerMsg.removePin pin]⟩

/-- `rPIO.UpdatePollFreq`: guarded on `!r.open` (not on `polling`), then
sends the new duration on the `newPollFreq` channel. -/
def UpdatePollFreq (r : ControllerState) (d : Duration) : OpResult :=
  if !r.isOpen then ⟨some errPollingNotStarted, r, [], []⟩
  else ⟨none, r, [], [PollerMsg.newPollFreq d]⟩

/-- Go struct `rpioPoller`: the coordinator's state.  The `ticker` is
represented by its current interval, the registry `registeredPins`
(`map[rpio.Pin]pinRegistration`) by an association list, and `stopped`
records that the `poll` loop has exited (after which it consumes no further
messages). -/
structure PollerState where
  interval : Duration
  registeredPins : List (Pin × pinRegistration)
  stopped : Bool

/-- Look a pin up in the coordinator's registry. -/
def mapLookup : List (Pin × pinRegistration) → Pin → Option pinRegistration
  | [], _ => none
  | e :: rest, k => if e.1 = k then some e.2 else mapLookup rest k

/-- Delete a pin's entry from the registry
(Go: `delete(p.registeredPins, registrationToRemove)`). -/
def mapDelete : List (Pin × pinRegistration) → Pin → List (Pin × pinRegistration)
  | [], _ => []
  | e :: rest, k => if e.1 = k then mapDelete rest k else e :: mapDelete rest k

/-- Insert a registration under a pin, overwriting any existing entry
(Go: `p.registeredPins[newRegistration.pin] = newRegistration`). -/
def mapInsert (m : List (Pin × pinRegistration)) (k : Pin) (v : pinRegistration) :
    List (Pin × pinRegistration) :=
  mapDelete m k ++ [(k, v)]

/-- A spawned callback invocation (`go registration.callback(registration.edge)`):
the registry key it was dispatched for, the callback, and the edge argument. -/
structure Invocation where
  pin : Pin
  callback : Callback
  arg : Edge
  deriving DecidableEq, Repr

/-- The invocations spawned by one tick: for every registered pin whose
`EdgeDetected()` read is true, the registration's callback applied to the
registration's edge. -/
def tickEvents : List (Pin × pinRegistration) → (Pin → Bool) → List Invocation
  | [], _ => []
  | e :: rest, f =>
      (if f e.1 then [⟨e.1, e.2.callback, e.2.edge⟩] else []) ++ tickEvents rest f

/-- One iteration of `rpioPoller.poll`'s select loop, consuming one ready
channel event.  A stopped poller (after `break pollLoop`) consumes nothing. -/
def pollStep (s : PollerState) (m : PollerMsg) : PollerState × List Invocation :=
  if s.stopped then (s, [])
  else
    match m with
    | PollerMsg.tick f => (s, tickEvents s.registeredPins f)
    | PollerMsg.newPin reg =>
        ({ s with registeredPins := mapInsert s.registeredPins reg.pin reg }, [])
    | PollerMsg.removePin p =>
        ({ s with registeredPins := mapDelete s.registeredPins p }, [])
    | PollerMsg.newPollFreq d => ({ s with interval := d }, [])
    | PollerMsg.stop => ({ s with stopped := true }, [])

/-- Run the poll loop over a sequence of events, collecting all spawned
invocations in order. -/
def pollRun (s : PollerState) : List PollerMsg → PollerState × List Invocation
  | [] => (s, [])
  | m :: rest =>
      let st := pollStep s m
      let rst := pollRun st.1 rest
      (rst.1, st.2 ++ rst.2)

/-- The registry keys have no duplicates (always true of a Go map; preserved
by `pollStep`). -/
def nodupKeys (m : List (Pin × pinRegistration)) : Prop :=
  (m.map Prod.fst).Nodup

/-- The whole system: the controller, the messages sent to the poller but
not yet consumed by its loop, and the poller. -/
structure SysState where
  ctrl : ControllerState
  pending : List PollerMsg
  poller : PollerState

/-- Effect of one channel message on the registry alone. -/
def applyRegMsg (reg : List (Pin × pinRegistration)) : PollerMsg →
    List (Pin × pinRegistration)
  | PollerMsg.newPin r => mapInsert reg r.pin r
  | PollerMsg.removePin p => mapDelete reg p
  | _ => reg

/-- The registry the coordinator will hold once it has drained the pending
messages: its current registry with every pending mutation applied. -/
def effectiveRegistry (s : SysState) : List (Pin × pinRegistration) :=
  s.pending.foldl applyRegMsg s.poller.registeredPins

/-- Invariant I1 of the spec: a pin is in the controller's shadow set iff a
registration for it exists in the coordinator's registry or is pending in an
already-sent message. -/
def InvariantI1 (s : SysState) : Prop :=
  ∀ p : Pin, p ∈ s.ctrl.registeredPins ↔ (mapLookup (effectiveRegistry s) p).isSome

/-- `RegisterEdgeDetection` at the system level: the messages it sends are
appended to the pending queue. -/
def sysRegister (s : SysState) (pin : Pin) (edge : Edge) (cb : Callback) : SysState :=
  let r := RegisterEdgeDetection s.ctrl pin edge cb
  ⟨r.state, s.pending ++ r.msgs, s.poller⟩

/-- `RemoveEdgeDetectionRegistration` at the system level. -/
def sysRemove (s : SysState) (pin : Pin) : SysState :=
  let r := RemoveEdgeDetectionRegistration s.ctrl pin
  ⟨r.state, s.pending ++ r.msgs, s.poller⟩

/-- One iteration of the coordinator's loop at the system level: consume the
oldest pending message (channel sends are consumed in send order for a
single sending thread). -/
def sysCoordStep (s : SysState) : SysState :=
  match s.pending with
  | [] => s
  | m :: rest => ⟨s.ctrl, rest, (pollStep s.poller m).1⟩

/-- A controller that is neither open nor polling, as built by `init`. -/
def sClosed : ControllerState := ⟨false, false, []⟩

/-- An open controller that is not yet polling. -/
def sOpenOnly : ControllerState := ⟨true, false, []⟩

/-- An open, polling controller with no registrations. -/
def sReady : ControllerState := ⟨true, true, []⟩

/-- A fresh poller, as built by `init`. -/
def pInit : PollerState := ⟨DefaultPollFreq, [], false⟩

/-- A fresh whole system in the ready state. -/
def sysReady : SysState := ⟨sReady, [], pInit⟩

/-! ## Theorems -/

/-- C1: `RegisterEdgeDetection(pin, edge, callback)` returns the NotOpen
error when not open; otherwise the NotPolling error when not polling;
otherwise the AlreadyRegistered error when the pin is already registered
(so a second registration of the same pin without an intervening removal
fails with AlreadyRegistered); otherwise it adds the pin to
`registeredPins`, programs hardware edge detection for it, sends the
registration to the poller, and succeeds.  Every error path leaves the
state unchanged. -/
theorem RegisterEdgeDetection_correct (r : ControllerState) (pin : Pin)
    (edge : Edge) (cb : Callback) :
    (r.isOpen = false →
      RegisterEdgeDetection r pin edge cb = ⟨some errNotOpen, r, [], []⟩)
    ∧ (r.isOpen = true → r.polling = false →
      RegisterEdgeDetection r pin edge cb = ⟨some errNotPolling, r, [], []⟩)
    ∧ (r.isOpen = true → r.polling = true → pin ∈ r.registeredPins →
      RegisterEdgeDetection r pin edge cb = ⟨some errAlreadyRegistered, r, [], []⟩)
    ∧ (r.isOpen = true → r.polling = true → pin ∉ r.registeredPins →
      RegisterEdgeDetection r pin edge cb =
        ⟨none, { r with registeredPins := r.registeredPins ++ [pin] },
          [Effect.detect pin edge], [PollerMsg.newPin ⟨pin, edge, cb⟩]⟩)
    ∧ ((RegisterEdgeDetection r pin edge cb).err = none →
      ∀ edge2 cb2,
        (RegisterEdgeDetection (RegisterEdgeDetection r pin edge cb).state
          pin edge2 cb2).err = some errAlreadyRegistered) := by
  refine ⟨?_, ?_, ?_, ?_, ?_⟩
  · intro h; simp [RegisterEdgeDetection, h]
  · intro h1 h2; simp [RegisterEdgeDetection, h1, h2]
  · intro h1 h2 h3; simp [RegisterEdgeDetection, h1, h2, h3]
  · intro h1 h2 h3; simp [RegisterEdgeDetection, h1, h2, h3]
  · intro h edge2 cb2
    by_cases h1 : r.isOpen
    · by_cases h2 : r.polling
      · by_cases h3 : pin ∈ r.registeredPins
        · simp [RegisterEdgeDetection, h1, h2, h3] at h
        · simp [RegisterEdgeDetection, h1, h2, h3]
      · simp [RegisterEdgeDetection, h1, h2] at h
    · simp [RegisterEdgeDetection, h1] at h

/-- Witness for C1: concrete runs of both an error path and the
register-twice path. -/
theorem RegisterEdgeDetection_correct_witness :
    RegisterEdgeDetection sClosed 5 RiseEdge 0 = ⟨some errNotOpen, sClosed, [], []⟩
    ∧ (RegisterEdgeDetection sReady 5 RiseEdge 0).err = none
    ∧ (RegisterEdgeDetection (RegisterEdgeDetection sReady 5 RiseEdge 0).state
        5 FallEdge 1).err = some errAlreadyRegistered :=
  ⟨(RegisterEdgeDetection_correct sClosed 5 RiseEdge 0).1 rfl,
   rfl,
   (RegisterEdgeDetection_correct sReady 5 RiseEdge 0).2.2.2.2 rfl FallEdge 1⟩

/-- C3: `RemoveEdgeDetectionRegistration(pin)` returns the NotOpen error
when not open; otherwise the NotPolling error when not polling; otherwise
the NotRegistered error when the pin is not in `registeredPins` (so removal
without a prior successful registration fails); otherwise it removes the
pin from `registeredPins`, clears the hardware edge-detection mode, sends a
removal request to the poller, and succeeds. -/
theorem RemoveEdgeDetectionRegistration_correct (r : ControllerState) (pin : Pin) :
    (r.isOpen = false →
      RemoveEdgeDetectionRegistration r pin = ⟨some errNotOpen, r, [], []⟩)
    ∧ (r.isOpen = true → r.polling = false →
      RemoveEdgeDetectionRegistration r pin = ⟨some errNotPolling, r, [], []⟩)
    ∧ (r.isOpen = true → r.polling = true → pin ∉ r.registeredPins →
      RemoveEdgeDetectionRegistration r pin = ⟨some errNotRegistered, r, [], []⟩)
    ∧ (r.isOpen = true → r.polling = true → pin ∈ r.registeredPins →
      RemoveEdgeDetectionRegistration r pin =
        ⟨none, { r with registeredPins := setRemove r.registeredPins pin },
          [Effect.detect pin NoEdge], [PollerMsg.removePin pin]⟩) := by
  refine ⟨?_, ?_, ?_, ?_⟩
  · intro h; simp [RemoveEdgeDetectionRegistration, h]
  · intro h1 h2; simp [RemoveEdgeDetectionRegistration, h1, h2]
  · intro h1 h2 h3; simp [RemoveEdgeDetectionRegistration, h1, h2, h3]
  · intro h1 h2 h3; simp [RemoveEdgeDetectionRegistration, h1, h2, h3]

/-- Witness for C3: removal without prior registration fails with
NotRegistered; removal of a registered pin succeeds and shrinks the set. -/
theorem RemoveEdgeDetectionRegistration_correct_witness :
    RemoveEdgeDetectionRegistration sReady 5 = ⟨some errNotRegistered, sReady, [], []⟩
    ∧ RemoveEdgeDetectionRegistration ⟨true, true, [5]⟩ 5 =
        ⟨none, ⟨true, true, []⟩, [Effect.detect 5 NoEdge], [PollerMsg.removePin 5]⟩ :=
  ⟨(RemoveEdgeDetectionRegistration_correct sReady 5).2.2.1 rfl rfl (by simp [sReady]),
   (RemoveEdgeDetectionRegistration_correct ⟨true, true, [5]⟩ 5).2.2.2 rfl rfl
     (by simp)⟩

/-- C6: `UpdatePollFreq(d)` fails exactly when the device is not open — the
guard is on `isOpen`, not on `polling`, even though the error label reads
"polling has not yet started" — and when open it sends the new interval to
the poller and succeeds without requiring `polling` to be true. -/
theorem UpdatePollFreq_correct (r : ControllerState) (d : Duration) :
    ((UpdatePollFreq r d).err.isSome ↔ r.isOpen = false)
    ∧ (r.isOpen = false →
      UpdatePollFreq r d = ⟨some errPollingNotStarted, r, [], []⟩)
    ∧ (r.isOpen = true →
      UpdatePollFreq r d = ⟨none, r, [], [PollerMsg.newPollFreq d]⟩) := by
  cases hr : r.isOpen <;> simp [UpdatePollFreq, hr]

/-- Witness for C6: succeeds while open but not polling; fails when closed. -/
theorem UpdatePollFreq_correct_witness :
    sOpenOnly.polling = false
    ∧ UpdatePollFreq sOpenOnly 50 = ⟨none, sOpenOnly, [], [PollerMsg.newPollFreq 50]⟩
    ∧ UpdatePollFreq sClosed 50 = ⟨some errPollingNotStarted, sClosed, [], []⟩ :=
  ⟨rfl,
   (UpdatePollFreq_correct sOpenOnly 50).2.2 rfl,
   (UpdatePollFreq_correct sClosed 50).2.1 rfl⟩

/-- C4: each lifecycle operation is idempotent: immediately repeating
`Start`, `Poll`, `StopPolling`, or `Stop` is a complete no-op — the second
call returns the state it was given unchanged, performs no hardware effect,
and sends no message. -/
theorem lifecycle_idempotent (r : ControllerState) :
    Start (Start r).state = noop (Start r).state
    ∧ Poll (Poll r).state = noop (Poll r).state
    ∧ StopPolling (StopPolling r).state = noop (StopPolling r).state
    ∧ Stop (Stop r).state = noop (Stop r).state := by
  refine ⟨?_, ?_, ?_, ?_⟩ <;>
    cases ho : r.isOpen <;> cases hp : r.polling <;>
      simp [Start, Poll, StopPolling, Stop, noop, ho, hp]

/-- C9: error atomicity — whenever `RegisterEdgeDetection`,
`RemoveEdgeDetectionRegistration`, or `UpdatePollFreq` returns an error,
the controller state is unchanged, no hardware call is made, and no message
is sent to the poller. -/
theorem error_atomicity (r : ControllerState) (pin : Pin) (edge : Edge)
    (cb : Callback) (d : Duration) :
    ((RegisterEdgeDetection r pin edge cb).err ≠ none →
      RegisterEdgeDetection r pin edge cb =
        ⟨(RegisterEdgeDetection r pin edge cb).err, r, [], []⟩)
    ∧ ((RemoveEdgeDetectionRegistration r pin).err ≠ none →
      RemoveEdgeDetectionRegistration r pin =
        ⟨(RemoveEdgeDetectionRegistration r pin).err, r, [], []⟩)
    ∧ ((UpdatePollFreq r d).err ≠ none →
      UpdatePollFreq r d = ⟨(UpdatePollFreq r d).err, r, [], []⟩) := by
  refine ⟨?_, ?_, ?_⟩ <;>
    by_cases h1 : r.isOpen <;> by_cases h2 : r.polling <;>
      by_cases h3 : pin ∈ r.registeredPins <;>
        simp [RegisterEdgeDetection, RemoveEdgeDetectionRegistration,
          UpdatePollFreq, h1, h2, h3]

/-- Witness for C9: the three operations, called on a closed controller,
each return an error and leave everything untouched. -/
theorem error_atomicity_witness :
    RegisterEdgeDetection sClosed 1 RiseEdge 0 =
      ⟨(RegisterEdgeDetection sClosed 1 RiseEdge 0).err, sClosed, [], []⟩
    ∧ RemoveEdgeDetectionRegistration sClosed 1 =
      ⟨(RemoveEdgeDetectionRegistration sClosed 1).err, sClosed, [], []⟩
    ∧ UpdatePollFreq sClosed 50 =
      ⟨(UpdatePollFreq sClosed 50).err, sClosed, [], []⟩ :=
  ⟨(error_atomicity sClosed 1 RiseEdge 0 50).1 (by simp [RegisterEdgeDetection, sClosed]),
   (error_atomicity sClosed 1 RiseEdge 0 50).2.1
     (by simp [RemoveEdgeDetectionRegistration, sClosed]),
   (error_atomicity sClosed 1 RiseEdge 0 50).2.2 (by simp [UpdatePollFreq, sClosed])⟩

/-! ### Registry map lemmas -/

/-- Lookup in an appended registry: the left part wins. -/
theorem mapLookup_append (a b : List (Pin × pinRegistration)) (q : Pin) :
    mapLookup (a ++ b) q =
      match mapLookup a q with
      | some v => some v
      | none => mapLookup b q := by
  induction a with
  | nil => simp [mapLookup]
  | cons e rest ih => by_cases h : e.1 = q <;> simp [mapLookup, h, ih]

/-- Lookup after deletion. -/
theorem mapLookup_delete (m : List (Pin × pinRegistration)) (k q : Pin) :
    mapLookup (mapDelete m k) q = if q = k then none else mapLookup m q := by
  induction m with
  | nil => simp [mapLookup, mapDelete]
  | cons e rest ih =>
    simp only [mapDelete]
    by_cases h1 : e.1 = k
    · rw [if_pos h1, ih]
      by_cases h2 : q = k
      · simp [h2]
      · have h3 : e.1 ≠ q := by rw [h1]; exact fun hh => h2 hh.symm
        simp [mapLookup, h2, h3]
    · rw [if_neg h1]
      simp only [mapLookup, ih]
      by_cases h2 : e.1 = q
      · have h3 : ¬q = k := fun hq => h1 (h2.trans hq)
        simp [h2, h3]
      · simp [h2]

/-- Lookup after insertion: the inserted entry wins at its own key. -/
theorem mapLookup_insert (m : List (Pin × pinRegistration)) (k q : Pin)
    (v : pinRegistration) :
    mapLookup (mapInsert m k v) q = if q = k then some v else mapLookup m q := by
  rw [mapInsert, mapLookup_append, mapLookup_delete]
  by_cases h : q = k
  · simp [h, mapLookup]
  · have h' : ¬k = q := fun hh => h hh.symm
    cases hm : mapLookup m q <;> simp [hm, mapLookup, h, h']

/-- Deleting an absent key leaves the registry unchanged. -/
theorem mapDelete_of_lookup_none (m : List (Pin × pinRegistration)) (k : Pin)
    (h : mapLookup m k = none) : mapDelete m k = m := by
  induction m with
  | nil => rfl
  | cons e rest ih =>
    simp only [mapLookup] at h
    by_cases h1 : e.1 = k
    · simp [h1] at h
    · rw [if_neg h1] at h
      simp [mapDelete, h1, ih h]

/-- A lookup misses exactly when the key is not a registry key. -/
theorem mapLookup_eq_none_iff (m : List (Pin × pinRegistration)) (k : Pin) :
    mapLookup m k = none ↔ k ∉ m.map Prod.fst := by
  induction m with
  | nil => simp [mapLookup]
  | cons e rest ih =>
    simp only [mapLookup, List.map_cons, List.mem_cons]
    by_cases h : e.1 = k
    · simp [h]
    · rw [if_neg h, ih]
      have h' : ¬k = e.1 := fun hh => h hh.symm
      simp [h']

/-- Keys surviving a deletion were keys before. -/
theorem mem_keys_delete (m : List (Pin × pinRegistration)) (k q : Pin) :
    q ∈ (mapDelete m k).map Prod.fst → q ∈ m.map Prod.fst := by
  induction m with
  | nil => simp [mapDelete]
  | cons e rest ih =>
    by_cases h1 : e.1 = k
    · simp only [mapDelete, if_pos h1, List.map_cons, List.mem_cons]
      intro hq; exact Or.inr (ih hq)
    · simp only [mapDelete, if_neg h1, List.map_cons, List.mem_cons]
      rintro (h | h)
      · exact Or.inl h
      · exact Or.inr (ih h)

/-- Deletion preserves key distinctness. -/
theorem nodupKeys_delete (m : List (Pin × pinRegistration)) (k : Pin)
    (h : nodupKeys m) : nodupKeys (mapDelete m k) := by
  induction m with
  | nil => exact h
  | cons e rest ih =>
    simp only [nodupKeys, List.map_cons, List.nodup_cons] at h
    by_cases h1 : e.1 = k
    · simp only [mapDelete, if_pos h1]
      exact ih h.2
    · simp only [mapDelete, if_neg h1, nodupKeys, List.map_cons, List.nodup_cons]
      exact ⟨fun hq => h.1 (mem_keys_delete rest k e.1 hq), ih h.2⟩

/-- Insertion preserves key distinctness. -/
theorem nodupKeys_insert (m : List (Pin × pinRegistration)) (k : Pin)
    (v : pinRegistration) (h : nodupKeys m) : nodupKeys (mapInsert m k v) := by
  have hd : nodupKeys (mapDelete m k) := nodupKeys_delete m k h
  have hk : k ∉ (mapDelete m k).map Prod.fst :=
    (mapLookup_eq_none_iff _ _).mp (by rw [mapLookup_delete]; simp)
  simp only [mapInsert, nodupKeys, List.map_append]
  refine List.nodup_append.mpr ⟨hd, by simp, ?_⟩
  intro a ha hb
  simp only [List.map_cons, List.map_nil, List.mem_singleton] at hb
  subst hb
  exact hk ha

/-- Every step of the poll loop preserves key distinctness of the registry
(so the registry always behaves as the Go map it embeds). -/
theorem pollStep_nodupKeys (s : PollerState) (m : PollerMsg)
    (h : nodupKeys s.registeredPins) :
    nodupKeys (pollStep s m).1.registeredPins := by
  by_cases hs : s.stopped
  · simpa [pollStep, hs] using h
  · cases m with
    | tick f => simpa [pollStep, hs] using h
    | newPin reg => simpa [pollStep, hs] using nodupKeys_insert _ _ _ h
    | removePin p => simpa [pollStep, hs] using nodupKeys_delete _ _ h
    | newPollFreq d => simpa [pollStep, hs] using h
    | stop => simpa [pollStep, hs] using h

/-- Membership after removal from the controller's shadow set. -/
theorem setRemove_mem (l : List Pin) (p q : Pin) :
    q ∈ setRemove l p ↔ q ∈ l ∧ q ≠ p := by
  induction l with
  | nil => simp [setRemove]
  | cons a rest ih =>
    by_cases h : a = p
    · subst h
      simp only [setRemove, if_pos rfl, List.mem_cons, ih]
      tauto
    · simp only [setRemove, if_neg h, List.mem_cons, ih]
      constructor
      · rintro (rfl | ⟨hq, hp⟩)
        · exact ⟨Or.inl rfl, h⟩
        · exact ⟨Or.inr hq, hp⟩
      · rintro ⟨(rfl | hq), hp⟩
        · exact Or.inl rfl
        · exact Or.inr ⟨hq, hp⟩

/-- A live poll-loop step mutates the registry exactly as `applyRegMsg`. -/
theorem pollStep_registeredPins (s : PollerState) (m : PollerMsg)
    (h : s.stopped = false) :
    (pollStep s m).1.registeredPins = applyRegMsg s.registeredPins m := by
  cases m <;> simp [pollStep, h, applyRegMsg]

/-! ### Tick dispatch lemmas -/

/-- A tick spawns no invocation for a pin absent from the registry. -/
theorem tickEvents_filter_none (m : List (Pin × pinRegistration)) (L : Pin)
    (f : Pin → Bool) (h : mapLookup m L = none) :
    (tickEvents m f).filter (fun inv => inv.pin == L) = [] := by
  induction m with
  | nil => rfl
  | cons e rest ih =>
    simp only [mapLookup] at h
    by_cases h1 : e.1 = L
    · simp [h1] at h
    · rw [if_neg h1] at h
      by_cases hf : f e.1 <;> simp [tickEvents, hf, ih h, h1]

/-- A pin absent from (the keys of) the registry stays absent and draws no
invocation through any step that does not register it. -/
theorem pollStep_absent (s : PollerState) (L : Pin) (m : PollerMsg)
    (hP : s.stopped = true ∨ mapLookup s.registeredPins L = none)
    (hm : ∀ reg : pinRegistration, m = PollerMsg.newPin reg → reg.pin ≠ L) :
    ((pollStep s m).1.stopped = true ∨
      mapLookup (pollStep s m).1.registeredPins L = none)
    ∧ (pollStep s m).2.filter (fun inv => inv.pin == L) = [] := by
  by_cases hs : s.stopped
  · simp [pollStep, hs]
  · rcases hP with hP | hP
    · exact absurd hP (by simp [hs])
    · cases m with
      | tick f =>
          exact ⟨Or.inr (by simpa [pollStep, hs] using hP),
            by simpa [pollStep, hs] using tickEvents_filter_none _ L f hP⟩
      | newPin reg =>
          refine ⟨Or.inr ?_, by simp [pollStep, hs]⟩
          have hne : reg.pin ≠ L := hm reg rfl
          have hne' : ¬L = reg.pin := fun hh => hne hh.symm
          simp [pollStep, hs, mapLookup_insert, hne', hP]
      | removePin p =>
          refine ⟨Or.inr ?_, by simp [pollStep, hs]⟩
          simp only [pollStep, hs, Bool.false_eq_true, if_false]
          rw [mapLookup_delete]
          by_cases hLp : L = p <;> simp [hLp, hP]
      | newPollFreq d => exact ⟨Or.inr (by simpa [pollStep, hs] using hP), by simp [pollStep, hs]⟩
      | stop => exact ⟨Or.inl (by simp [pollStep, hs]), by simp [pollStep, hs]⟩

/-- Running the loop from a state where a pin is absent (or the loop has
exited), over events that never re-register that pin, spawns no invocation
for it. -/
theorem pollRun_absent (L : Pin) (msgs : List PollerMsg) :
    ∀ s : PollerState,
      (s.stopped = true ∨ mapLookup s.registeredPins L = none) →
      (∀ reg : pinRegistration, PollerMsg.newPin reg ∈ msgs → reg.pin ≠ L) →
      (pollRun s msgs).2.filter (fun inv => inv.pin == L) = [] := by
  induction msgs with
  | nil => intro s _ _; rfl
  | cons m rest ih =>
    intro s hP hmsgs
    have hstep := pollStep_absent s L m hP (fun reg hm => hmsgs reg (by simp [hm]))
    have hrest := ih (pollStep s m).1 hstep.1
      (fun reg hm => hmsgs reg (List.mem_cons_of_mem _ hm))
    simp [pollRun, List.filter_append, hstep.2, hrest]

/-- A registered pin whose edge-detected read is true draws exactly its own
callback, applied to its registered edge, from one tick's dispatch. -/
theorem tickEvents_filter_eq (m : List (Pin × pinRegistration)) (L : Pin)
    (r : pinRegistration) (f : Pin → Bool) (hnd : nodupKeys m)
    (hl : mapLookup m L = some r) (hf : f L = true) :
    (tickEvents m f).filter (fun inv => inv.pin == L) = [⟨L, r.callback, r.edge⟩] := by
  induction m with
  | nil => simp [mapLookup] at hl
  | cons e rest ih =>
    simp only [nodupKeys, List.map_cons, List.nodup_cons] at hnd
    have hnd' : nodupKeys rest := hnd.2
    simp only [mapLookup] at hl
    by_cases h1 : e.1 = L
    · rw [if_pos h1] at hl
      injection hl with hl'
      subst hl'
      have hrest : mapLookup rest L = none :=
        (mapLookup_eq_none_iff rest L).mpr (h1 ▸ hnd.1)
      have hfe : f e.1 = true := by rw [h1]; exact hf
      simp [tickEvents, hfe, hf, h1, tickEvents_filter_none rest L f hrest]
    · rw [if_neg h1] at hl
      by_cases hfe : f e.1 <;> simp [tickEvents, hfe, h1, ih hnd' hl]

/-- C2: if a tick occurs while the poller's registry contains a registration
for pin L (with edge kind `edge` and callback `cb`) and the hardware layer
reports a detected edge for L on that tick, then exactly one callback
invocation for L is spawned on that tick, and it is `cb` applied to `edge`. -/
theorem tick_invokes_callback_once (s : PollerState) (L : Pin) (edge : Edge)
    (cb : Callback) (f : Pin → Bool) (hstop : s.stopped = false)
    (hnd : nodupKeys s.registeredPins)
    (hreg : mapLookup s.registeredPins L = some ⟨L, edge, cb⟩)
    (hf : f L = true) :
    (pollStep s (PollerMsg.tick f)).2.filter (fun inv => inv.pin == L) =
      [⟨L, cb, edge⟩]
    ∧ (pollStep s (PollerMsg.tick f)).2.countP (fun inv => inv.pin == L) = 1 := by
  have h := tickEvents_filter_eq s.registeredPins L ⟨L, edge, cb⟩ f hnd hreg hf
  have hfil : (pollStep s (PollerMsg.tick f)).2.filter (fun inv => inv.pin == L) =
      [⟨L, cb, edge⟩] := by
    simpa [pollStep, hstop] using h
  refine ⟨hfil, ?_⟩
  rw [List.countP_eq_length_filter, hfil]
  rfl

/-- Witness for C2: one registered pin, edge reported, exactly its callback
invoked with its registered edge. -/
theorem tick_invokes_callback_once_witness :
    (pollStep ⟨DefaultPollFreq, [(5, ⟨5, RiseEdge, 7⟩)], false⟩
        (PollerMsg.tick (fun _ => true))).2.filter (fun inv => inv.pin == 5) =
      [⟨5, 7, RiseEdge⟩] :=
  (tick_invokes_callback_once ⟨DefaultPollFreq, [(5, ⟨5, RiseEdge, 7⟩)], false⟩
    5 RiseEdge 7 (fun _ => true) rfl (by simp [nodupKeys]) rfl rfl).1

/-- C7: once the poller has consumed the removal request for pin L, no later
event — in particular no tick, whatever the hardware reports — spawns an
invocation for L, as long as no new registration for L arrives. -/
theorem no_callback_after_removal (s : PollerState) (L : Pin)
    (msgs : List PollerMsg)
    (hmsgs : ∀ reg : pinRegistration, PollerMsg.newPin reg ∈ msgs → reg.pin ≠ L) :
    (pollRun (pollStep s (PollerMsg.removePin L)).1 msgs).2.filter
      (fun inv => inv.pin == L) = [] := by
  apply pollRun_absent L msgs _ _ hmsgs
  by_cases hs : s.stopped
  · exact Or.inl (by simp [pollStep, hs])
  · have hb : s.stopped = false := by simpa using hs
    refine Or.inr ?_
    rw [pollStep_registeredPins s _ hb]
    simp [applyRegMsg, mapLookup_delete]

/-- Witness for C7: registry holds pin 5, removal is consumed, two ticks with
the hardware still reporting an edge spawn nothing for pin 5. -/
theorem no_callback_after_removal_witness :
    (pollRun (pollStep ⟨DefaultPollFreq, [(5, ⟨5, RiseEdge, 7⟩)], false⟩
        (PollerMsg.removePin 5)).1
      [PollerMsg.tick (fun _ => true), PollerMsg.tick (fun _ => true)]).2.filter
      (fun inv => inv.pin == 5) = [] :=
  no_callback_after_removal ⟨DefaultPollFreq, [(5, ⟨5, RiseEdge, 7⟩)], false⟩ 5
    [PollerMsg.tick (fun _ => true), PollerMsg.tick (fun _ => true)]
    (by intro reg h; simp at h)

/-- C8: a removal request deletes the registry entry for the pin when
present and leaves the registry unchanged when absent, silently and with no
other action; a new registration is inserted, overwriting any pre-existing
entry for the same pin. -/
theorem pollStep_registry_mutations (s : PollerState) (hstop : s.stopped = false) :
    (∀ L : Pin,
      (pollStep s (PollerMsg.removePin L)).1.registeredPins =
        mapDelete s.registeredPins L
      ∧ mapLookup (pollStep s (PollerMsg.removePin L)).1.registeredPins L = none
      ∧ (∀ q : Pin, q ≠ L →
          mapLookup (pollStep s (PollerMsg.removePin L)).1.registeredPins q =
            mapLookup s.registeredPins q)
      ∧ (mapLookup s.registeredPins L = none →
          (pollStep s (PollerMsg.removePin L)).1 = s)
      ∧ (pollStep s (PollerMsg.removePin L)).2 = []
      ∧ (pollStep s (PollerMsg.removePin L)).1.interval = s.interval
      ∧ (pollStep s (PollerMsg.removePin L)).1.stopped = false)
    ∧ (∀ reg : pinRegistration,
      (pollStep s (PollerMsg.newPin reg)).1.registeredPins =
        mapInsert s.registeredPins reg.pin reg
      ∧ mapLookup (pollStep s (PollerMsg.newPin reg)).1.registeredPins reg.pin =
          some reg
      ∧ (∀ q : Pin, q ≠ reg.pin →
          mapLookup (pollStep s (PollerMsg.newPin reg)).1.registeredPins q =
            mapLookup s.registeredPins q)
      ∧ (pollStep s (PollerMsg.newPin reg)).2 = []) := by
  constructor
  · intro L
    refine ⟨by simp [pollStep, hstop], ?_, ?_, ?_, by simp [pollStep, hstop],
      by simp [pollStep, hstop], by simp [pollStep, hstop]⟩
    · simp [pollStep, hstop, mapLookup_delete]
    · intro q hq
      simp [pollStep, hstop, mapLookup_delete, hq]
    · intro h
      have hps : (pollStep s (PollerMsg.removePin L)).1 =
          { s with registeredPins := mapDelete s.registeredPins L } := by
        simp [pollStep, hstop]
      rw [hps, mapDelete_of_lookup_none _ _ h]
  · intro reg
    refine ⟨by simp [pollStep, hstop], ?_, ?_, by simp [pollStep, hstop]⟩
    · simp [pollStep, hstop, mapLookup_insert]
    · intro q hq
      simp [pollStep, hstop, mapLookup_insert, hq]

/-- Witness for C8: removal of a present pin empties its entry, removal of
an absent pin is the identity, and a new registration overwrites the old
entry for the same pin. -/
theorem pollStep_registry_mutations_witness :
    mapLookup (pollStep ⟨DefaultPollFreq, [(5, ⟨5, RiseEdge, 7⟩)], false⟩
        (PollerMsg.removePin 5)).1.registeredPins 5 = none
    ∧ (pollStep ⟨DefaultPollFreq, ([] : List (Pin × pinRegistration)), false⟩
        (PollerMsg.removePin 9)).1 = ⟨DefaultPollFreq, [], false⟩
    ∧ mapLookup (pollStep ⟨DefaultPollFreq, [(5, ⟨5, RiseEdge, 7⟩)], false⟩
        (PollerMsg.newPin ⟨5, FallEdge, 8⟩)).1.registeredPins 5 =
        some ⟨5, FallEdge, 8⟩ :=
  ⟨((pollStep_registry_mutations ⟨DefaultPollFreq, [(5, ⟨5, RiseEdge, 7⟩)], false⟩
      rfl).1 5).2.1,
   ((pollStep_registry_mutations ⟨DefaultPollFreq, [], false⟩ rfl).1 9).2.2.2.1 rfl,
   ((pollStep_registry_mutations ⟨DefaultPollFreq, [(5, ⟨5, RiseEdge, 7⟩)], false⟩
      rfl).2 ⟨5, FallEdge, 8⟩).2.1⟩

/-- C10: `Stop` and `StopPolling` leave the controller's shadow set
untouched and send no registry mutation (only the stop signal, which leaves
the poller's registry untouched as well), so a pin registered before `Stop`
still blocks re-registration after `Stop(); Start(); Poll()` with
AlreadyRegistered. -/
theorem stop_preserves_registrations (r : ControllerState) (pin : Pin)
    (edge : Edge) (cb : Callback) :
    (Stop r).state.registeredPins = r.registeredPins
    ∧ (StopPolling r).state.registeredPins = r.registeredPins
    ∧ (∀ m ∈ (Stop r).msgs, m = PollerMsg.stop)
    ∧ (∀ ps : PollerState,
        (pollStep ps PollerMsg.stop).1.registeredPins = ps.registeredPins)
    ∧ (pin ∈ r.registeredPins →
        (RegisterEdgeDetection (Poll (Start (Stop r).state).state).state
          pin edge cb).err = some errAlreadyRegistered) := by
  refine ⟨?_, ?_, ?_, ?_, ?_⟩
  · cases ho : r.isOpen <;> cases hp : r.polling <;>
      simp [Stop, StopPolling, noop, ho, hp]
  · cases hp : r.polling <;> simp [StopPolling, noop, hp]
  · intro m hm
    cases ho : r.isOpen <;> cases hp : r.polling <;>
      simp only [Stop, StopPolling, noop, ho, hp] at hm <;> simp_all
  · intro ps
    by_cases hs : ps.stopped <;> simp [pollStep, hs]
  · intro hmem
    cases ho : r.isOpen <;> cases hp : r.polling <;>
      simp [Stop, StopPolling, Start, Poll, noop, RegisterEdgeDetection,
        ho, hp, hmem]

/-- Witness for C10: pin 5 registered, then Stop, Start, Poll, and a fresh
registration attempt for pin 5 is refused as already registered. -/
theorem stop_preserves_registrations_witness :
    (Stop ⟨true, true, [5]⟩).state.registeredPins = [5]
    ∧ (RegisterEdgeDetection
        (Poll (Start (Stop ⟨true, true, [5]⟩).state).state).state 5 RiseEdge 0).err
        = some errAlreadyRegistered :=
  ⟨(stop_preserves_registrations ⟨true, true, [5]⟩ 5 RiseEdge 0).1,
   (stop_preserves_registrations ⟨true, true, [5]⟩ 5 RiseEdge 0).2.2.2.2
     (by simp)⟩

/-- Registering a pin in the shadow set and inserting its registration keep
the two sides in agreement. -/
theorem shadow_insert_agree (ctrl : List Pin) (eff : List (Pin × pinRegistration))
    (pin : Pin) (v : pinRegistration)
    (h : ∀ q : Pin, q ∈ ctrl ↔ (mapLookup eff q).isSome) :
    ∀ q : Pin, q ∈ ctrl ++ [pin] ↔ (mapLookup (mapInsert eff pin v) q).isSome := by
  intro q
  rw [mapLookup_insert]
  by_cases hq : q = pin
  · simp [hq]
  · simp only [List.mem_append, List.mem_singleton, hq, or_false, if_neg hq]
    exact h q

/-- Removing a pin from the shadow set and deleting its registration keep
the two sides in agreement. -/
theorem shadow_delete_agree (ctrl : List Pin) (eff : List (Pin × pinRegistration))
    (pin : Pin) (h : ∀ q : Pin, q ∈ ctrl ↔ (mapLookup eff q).isSome) :
    ∀ q : Pin, q ∈ setRemove ctrl pin ↔ (mapLookup (mapDelete eff pin) q).isSome := by
  intro q
  rw [mapLookup_delete, setRemove_mem]
  by_cases hq : q = pin
  · simp [hq]
  · simp only [hq, if_neg hq, ne_eq, not_false_iff, and_true]
    exact h q

/-- C5: invariant I1 — a pin is in the controller's shadow set iff a
registration for it exists in the coordinator's registry or is pending in an
already-sent message.  It is preserved by `RegisterEdgeDetection` and
`RemoveEdgeDetectionRegistration` (the controller updates its copy and sends
the matching mutation before reporting back) and by each iteration of a live
coordinator loop consuming one message; once no message is pending the two
sides agree exactly. -/
theorem registry_shadow_agreement (s : SysState) (pin : Pin) (edge : Edge)
    (cb : Callback) (hI : InvariantI1 s) :
    InvariantI1 (sysRegister s pin edge cb)
    ∧ InvariantI1 (sysRemove s pin)
    ∧ (s.poller.stopped = false → InvariantI1 (sysCoordStep s))
    ∧ (s.pending = [] → ∀ q : Pin,
        q ∈ s.ctrl.registeredPins ↔ (mapLookup s.poller.registeredPins q).isSome) := by
  simp only [InvariantI1, effectiveRegistry] at hI
  refine ⟨?_, ?_, ?_, ?_⟩
  · by_cases h1 : s.ctrl.isOpen
    · by_cases h2 : s.ctrl.polling
      · by_cases h3 : pin ∈ s.ctrl.registeredPins
        · have he : sysRegister s pin edge cb = ⟨s.ctrl, s.pending, s.poller⟩ := by
            simp [sysRegister, RegisterEdgeDetection, h1, h2, h3]
          rw [he]
          intro q
          exact hI q
        · have he : sysRegister s pin edge cb =
              ⟨{ s.ctrl with registeredPins := s.ctrl.registeredPins ++ [pin] },
                s.pending ++ [PollerMsg.newPin ⟨pin, edge, cb⟩], s.poller⟩ := by
            simp [sysRegister, RegisterEdgeDetection, h1, h2, h3]
          rw [he]
          intro q
          have heff : effectiveRegistry
              ⟨{ s.ctrl with registeredPins := s.ctrl.registeredPins ++ [pin] },
                s.pending ++ [PollerMsg.newPin ⟨pin, edge, cb⟩], s.poller⟩ =
              mapInsert (List.foldl applyRegMsg s.poller.registeredPins s.pending)
                pin ⟨pin, edge, cb⟩ := by
            simp [effectiveRegistry, List.foldl_append, applyRegMsg]
          show q ∈ s.ctrl.registeredPins ++ [pin] ↔ _
          rw [heff]
          exact shadow_insert_agree s.ctrl.registeredPins _ pin ⟨pin, edge, cb⟩ hI q
      · have he : sysRegister s pin edge cb = ⟨s.ctrl, s.pending, s.poller⟩ := by
          simp [sysRegister, RegisterEdgeDetection, h1, h2]
        rw [he]
        intro q
        exact hI q
    · have he : sysRegister s pin edge cb = ⟨s.ctrl, s.pending, s.poller⟩ := by
        simp [sysRegister, RegisterEdgeDetection, h1]
      rw [he]
      intro q
      exact hI q
  · by_cases h1 : s.ctrl.isOpen
    · by_cases h2 : s.ctrl.polling
      · by_cases h3 : pin ∈ s.ctrl.registeredPins
        · have he : sysRemove s pin =
              ⟨{ s.ctrl with registeredPins := setRemove s.ctrl.registeredPins pin },
                s.pending ++ [PollerMsg.removePin pin], s.poller⟩ := by
            simp [sysRemove, RemoveEdgeDetectionRegistration, h1, h2, h3]
          rw [he]
          intro q
          have heff : effectiveRegistry
              ⟨{ s.ctrl with registeredPins := setRemove s.ctrl.registeredPins pin },
                s.pending ++ [PollerMsg.removePin pin], s.poller⟩ =
              mapDelete (List.foldl applyRegMsg s.poller.registeredPins s.pending)
                pin := by
            simp [effectiveRegistry, List.foldl_append, applyRegMsg]
          show q ∈ setRemove s.ctrl.registeredPins pin ↔ _
          rw [heff]
          exact shadow_delete_agree s.ctrl.registeredPins _ pin hI q
        · have he : sysRemove s pin = ⟨s.ctrl, s.pending, s.poller⟩ := by
            simp [sysRemove, RemoveEdgeDetectionRegistration, h1, h2, h3]
          rw [he]
          intro q
          exact hI q
      · have he : sysRemove s pin = ⟨s.ctrl, s.pending, s.poller⟩ := by
          simp [sysRemove, RemoveEdgeDetectionRegistration, h1, h2]
        rw [he]
        intro q
        exact hI q
    · have he : sysRemove s pin = ⟨s.ctrl, s.pending, s.poller⟩ := by
        simp [sysRemove, RemoveEdgeDetectionRegistration, h1]
      rw [he]
      intro q
      exact hI q
  · intro hstop q
    cases hp : s.pending with
    | nil =>
        have hq := hI q
        rw [hp] at hq
        simp only [sysCoordStep, hp]
        simpa [InvariantI1, effectiveRegistry, hp] using hq
    | cons m rest =>
        have hq := hI q
        rw [hp] at hq
        simp only [sysCoordStep, hp]
        show q ∈ s.ctrl.registeredPins ↔
          (mapLookup (effectiveRegistry ⟨s.ctrl, rest, (pollStep s.poller m).1⟩) q).isSome
        have heff : effectiveRegistry ⟨s.ctrl, rest, (pollStep s.poller m).1⟩ =
            List.foldl applyRegMsg (applyRegMsg s.poller.registeredPins m) rest := by
          simp [effectiveRegistry, pollStep_registeredPins _ _ hstop]
        rw [heff]
        simpa [List.foldl_cons] using hq
  · intro hp q
    have hq := hI q
    rw [hp] at hq
    simpa using hq

/-- Witness for C5: the invariant holds in the fresh ready system and is
carried through a concrete registration. -/
theorem registry_shadow_agreement_witness :
    InvariantI1 sysReady ∧ InvariantI1 (sysRegister sysReady 5 RiseEdge 0) := by
  have hI0 : InvariantI1 sysReady := by
    intro q
    simp [InvariantI1, effectiveRegistry, sysReady, sReady, pInit, mapLookup]
  exact ⟨hI0, (registry_shadow_agreement sysReady 5 RiseEdge 0 hI0).1⟩
